import Mathlib

/-!
Verification of the limitz rate-limiting library.

The Go source is shallowly embedded: time instants and durations are modelled
as integers counting nanoseconds (Go `time.Time.UnixNano` / `time.Duration`),
machine-integer division with truncation toward zero is `Int.tdiv` / `Int.tmod`,
and the float64 computations of the source are modelled by exact rational
arithmetic followed by the same truncation the source applies.  Each engine's
`Allow` is a pure state-transition function; the pluggable store is modelled by
the `Option` state threaded through a run, and separately (for the
error-propagation claims) by an explicit `GetOutcome` describing how the store
`Get` call ended.
-/

namespace Limitz

/-- Nanoseconds in one second (`time.Second` in Go). -/
def nsPerSec : Int := 1000000000

/-- The Result struct returned by every Allow call
(Allowed, Limit, Remaining, RetryAfter — RetryAfter in nanoseconds). -/
structure Result where
  Allowed : Bool
  Limit : Int
  Remaining : Int
  RetryAfter : Int
  deriving Repr, DecidableEq

/-- Go conversion float64 → int truncates toward zero; this is the exact-rational
model of that conversion. -/
def ratTrunc (q : ℚ) : Int := Int.tdiv q.num (q.den : Int)

/-- Go expression `time.Duration(float64(time.Second) / float64(rate))` used by the
token- and leaky-bucket deny paths.  For rate ≠ 0 the float division is modelled
exactly and the conversion truncates toward zero.  For rate = 0 the float division
yields +Inf and Go's conversion of an out-of-range float to int64 is
platform-defined; on the gc targets it saturates to an int64 bound, so we use the
saturation value 2^63 - 1 (the claims below only depend on it being nonzero). -/
def invRateNanos (rate : Int) : Int :=
  if rate = 0 then 2 ^ 63 - 1 else Int.tdiv nsPerSec rate

/-- Outcome of a store `Get` call as seen by an algorithm engine: a value was
found, the key was absent (or expired), or the store failed for another reason
(connectivity, timeout, serialization). -/
inductive GetOutcome (α : Type) where
  | found (a : α)
  | notFound
  | storeError
  deriving Repr, DecidableEq

/-! ## Token bucket (src/unnamed/part_010) -/

/-- Per-key token-bucket state (struct Buckets: Tokens, LastRefillTs). -/
structure Buckets where
  Tokens : Int
  LastRefillTs : Int
  deriving Repr, DecidableEq

/-- Token-bucket engine configuration (Capacity, RefillRate). -/
structure TokenBucket where
  Capacity : Int
  RefillRate : Int
  deriving Repr, DecidableEq

/-- State initialized on first call for a key: tokens = capacity, lastRefillTs = now. -/
def TokenBucket.FreshBucket (tb : TokenBucket) (now : Int) : Buckets :=
  ⟨tb.Capacity, now⟩

/-- Body of TokenBucket.Allow after the state is loaded (part_010 lines 58-88):
refill ⌊elapsed seconds⌋ × refillRate tokens capped at capacity, then decrement
and allow iff tokens > 0.  Returns the Result and the state persisted by Set
(the TTL passed to Set is a constant 1 hour). -/
def TokenBucket.AllowCore (tb : TokenBucket) (now : Int) (bucket : Buckets) :
    Result × Buckets :=
  let timePassed := now - bucket.LastRefillTs
  let tokensToAdd := (Int.tdiv timePassed nsPerSec) * tb.RefillRate
  let tokensToAdd2 := min tokensToAdd (tb.Capacity - bucket.Tokens)
  let tokens := bucket.Tokens + tokensToAdd2
  if tokens > 0 then
    (⟨true, tb.Capacity, tokens - 1, 0⟩, ⟨tokens - 1, now⟩)
  else
    (⟨false, tb.Capacity, tokens, invRateNanos tb.RefillRate⟩, ⟨tokens, now⟩)

/-- TokenBucket.Allow on the state read from the store (`none` = key absent or any
Get error, both of which the code replaces by a fresh full bucket). -/
def TokenBucket.Allow (tb : TokenBucket) (now : Int) (st : Option Buckets) :
    Result × Buckets :=
  tb.AllowCore now (st.getD (tb.FreshBucket now))

/-- A sequence of Allow calls at the given instants, threading the persisted
state; returns all decisions and the final stored state. -/
def TokenBucket.Run (tb : TokenBucket) : List Int → Option Buckets →
    List Result × Option Buckets
  | [], st => ([], st)
  | t :: ts, st =>
    let step := tb.Allow t st
    let rest := tb.Run ts (some step.2)
    (step.1 :: rest.1, rest.2)

/-- TokenBucket.Allow including the store interaction (part_010 lines 37-88): the
code replaces ANY Get error — absence or store failure alike — by a fresh full
bucket, and only a Set failure is returned to the caller (as an error with a
zero-value Result, modelled by `Except.error`). -/
def TokenBucket.AllowStore (tb : TokenBucket) (now : Int)
    (g : GetOutcome Buckets) (setOk : Bool) : Except Unit (Result × Buckets) :=
  let bucket :=
    match g with
    | .found b => b
    | .notFound => tb.FreshBucket now
    | .storeError => tb.FreshBucket now
  let step := tb.AllowCore now bucket
  if setOk then .ok step else .error ()

/-! ## Fixed window, nanosecond variant (src/algorithms/tokenBucket.go lines 206-265) -/

/-- Per-key fixed-window state (struct FixedWindowBucket: Count, Window). -/
structure FixedWindowBucket where
  Count : Int
  Window : Int
  deriving Repr, DecidableEq

/-- Fixed-window engine configuration (Limit, WindowSize in nanoseconds). -/
structure FixedWindow where
  Limit : Int
  WindowSize : Int
  deriving Repr, DecidableEq

/-- FixedWindow.Allow of the nanosecond variant: window index from UnixNano
division, count reset on window change, increment, deny when count > limit with
retryAfter = nextWindowStart - now; persisted with TTL = windowSize (third
component). -/
def FixedWindow.AllowCore (fw : FixedWindow) (nowNanos : Int)
    (b0 : FixedWindowBucket) : Result × FixedWindowBucket × Int :=
  let currentWindow := Int.tdiv nowNanos fw.WindowSize
  let b1 := if currentWindow ≠ b0.Window then ⟨0, currentWindow⟩ else b0
  let b2 : FixedWindowBucket := ⟨b1.Count + 1, b1.Window⟩
  if b2.Count > fw.Limit then
    (⟨false, fw.Limit, 0, (currentWindow + 1) * fw.WindowSize - nowNanos⟩,
      b2, fw.WindowSize)
  else
    (⟨true, fw.Limit, fw.Limit - b2.Count, 0⟩, b2, fw.WindowSize)

/-- FixedWindow.Allow on the state read from the store (fresh state is
count = 0, window = 0). -/
def FixedWindow.Allow (fw : FixedWindow) (nowNanos : Int)
    (st : Option FixedWindowBucket) : Result × FixedWindowBucket × Int :=
  fw.AllowCore nowNanos (st.getD ⟨0, 0⟩)

/-! ## Fixed window, seconds variant (src/algorithms/fixedWindow.go) -/

/-- The seconds-based FixedWindow variant: window index computed from Unix
seconds and `int64(WindowSize.Seconds())`, and — unlike the nanosecond
variant — the deny path returns RetryAfter = the whole WindowSize duration. -/
structure FixedWindowSec where
  Limit : Int
  WindowSize : Int
  deriving Repr, DecidableEq

/-- FixedWindow.Allow of the seconds variant (fixedWindow.go lines 35-87);
`nowSec` is `time.Now().Unix()`; WindowSize is in nanoseconds and the window
index divisor is its truncated number of seconds. -/
def FixedWindowSec.AllowCore (fw : FixedWindowSec) (nowSec : Int)
    (b0 : FixedWindowBucket) : Result × FixedWindowBucket × Int :=
  let currentWindow := Int.tdiv nowSec (Int.tdiv fw.WindowSize nsPerSec)
  let b1 := if currentWindow ≠ b0.Window then ⟨0, currentWindow⟩ else b0
  let b2 : FixedWindowBucket := ⟨b1.Count + 1, b1.Window⟩
  if b2.Count > fw.Limit then
    (⟨false, fw.Limit, 0, fw.WindowSize⟩, b2, fw.WindowSize)
  else
    (⟨true, fw.Limit, fw.Limit - b2.Count, 0⟩, b2, fw.WindowSize)

/-- Seconds-variant Allow on the state read from the store. -/
def FixedWindowSec.Allow (fw : FixedWindowSec) (nowSec : Int)
    (st : Option FixedWindowBucket) : Result × FixedWindowBucket × Int :=
  fw.AllowCore nowSec (st.getD ⟨0, 0⟩)

/-- A sequence of seconds-variant Allow calls threading the persisted state. -/
def FixedWindowSec.Run (fw : FixedWindowSec) : List Int → Option FixedWindowBucket →
    List Result × Option FixedWindowBucket
  | [], st => ([], st)
  | t :: ts, st =>
    let step := fw.Allow t st
    let rest := fw.Run ts (some step.2.1)
    (step.1 :: rest.1, rest.2)

/-! ## Sliding window log (src/algorithms/leakyBucket_test.go lines 199-267) -/

/-- Per-key sliding-window-log state: the list of request timestamps (UnixNano). -/
structure SlidingWindowBucket where
  Timestamps : List Int
  deriving Repr, DecidableEq

/-- Sliding-window-log engine configuration (Limit, WindowSize in nanoseconds). -/
structure SlidingWindow where
  Limit : Int
  WindowSize : Int
  deriving Repr, DecidableEq

/-- SlidingWindow.Allow: drop timestamps ≤ now - windowSize, allow and append
`now` iff the remaining count is strictly below the limit; the (possibly
filtered) state is persisted in both branches with TTL = windowSize. -/
def SlidingWindow.Allow (sw : SlidingWindow) (now : Int)
    (st : Option SlidingWindowBucket) : Bool × SlidingWindowBucket × Int :=
  let windowStart := now - sw.WindowSize
  let bucket := st.getD ⟨[]⟩
  let validTimestamps := bucket.Timestamps.filter (fun ts => windowStart < ts)
  if (validTimestamps.length : Int) < sw.Limit then
    (true, ⟨validTimestamps ++ [now]⟩, sw.WindowSize)
  else
    (false, ⟨validTimestamps⟩, sw.WindowSize)

/-- A sequence of sliding-window-log Allow calls threading the persisted state. -/
def SlidingWindow.Run (sw : SlidingWindow) : List Int → Option SlidingWindowBucket →
    List Bool × Option SlidingWindowBucket
  | [], st => ([], st)
  | t :: ts, st =>
    let step := sw.Allow t st
    let rest := sw.Run ts (some step.2.1)
    (step.1 :: rest.1, rest.2)

/-! ## Sliding window counter (src/unnamed/part_009) -/

/-- Per-key sliding-window-counter state (PreviousCount, CurrentCount,
CurrentWindow). -/
structure SlidingWindowCounterBucket where
  PreviousCount : Int
  CurrentCount : Int
  CurrentWindow : Int
  deriving Repr, DecidableEq

/-- Sliding-window-counter engine configuration (Limit, WindowSize in
nanoseconds). -/
structure SlidingWindowCounter where
  Limit : Int
  WindowSize : Int
  deriving Repr, DecidableEq

/-- Window-shift step of SlidingWindowCounter.Allow (part_009 lines 76-80). -/
def SlidingWindowCounter.Shift (swc : SlidingWindowCounter) (nowNanos : Int)
    (b : SlidingWindowCounterBucket) : SlidingWindowCounterBucket :=
  let currentWindow := Int.tdiv nowNanos swc.WindowSize
  if currentWindow ≠ b.CurrentWindow then ⟨b.CurrentCount, 0, currentWindow⟩ else b

/-- The float64 estimate of part_009 lines 83-90, modelled by exact rational
arithmetic: previousCount × (windowSize - timeIntoWindow)/windowSize +
currentCount. -/
def SlidingWindowCounter.Estimate (swc : SlidingWindowCounter) (nowNanos : Int)
    (b : SlidingWindowCounterBucket) : ℚ :=
  let timeIntoWindow := Int.tmod nowNanos swc.WindowSize
  let overlap := swc.WindowSize - timeIntoWindow
  (b.PreviousCount : ℚ) * ((overlap : ℚ) / (swc.WindowSize : ℚ)) + (b.CurrentCount : ℚ)

/-- SlidingWindowCounter.Allow after the state is loaded: shift on window change,
allow iff estimate < limit (strict), increment on allow, remaining computed from
the pre-increment estimate truncated to int; persisted with TTL = 2 × windowSize
(third component). -/
def SlidingWindowCounter.AllowCore (swc : SlidingWindowCounter) (nowNanos : Int)
    (b0 : SlidingWindowCounterBucket) :
    Result × SlidingWindowCounterBucket × Int :=
  let b := swc.Shift nowNanos b0
  let est := swc.Estimate nowNanos b
  if est < (swc.Limit : ℚ) then
    (⟨true, swc.Limit, swc.Limit - ratTrunc est, 0⟩,
      ⟨b.PreviousCount, b.CurrentCount + 1, b.CurrentWindow⟩, 2 * swc.WindowSize)
  else
    (⟨false, swc.Limit, 0,
        (Int.tdiv nowNanos swc.WindowSize + 1) * swc.WindowSize - nowNanos⟩,
      b, 2 * swc.WindowSize)

/-- Fresh sliding-window-counter state for a never-seen key: both counts zero,
currentWindow = the window index of now. -/
def SlidingWindowCounter.FreshBucket (swc : SlidingWindowCounter) (nowNanos : Int) :
    SlidingWindowCounterBucket :=
  ⟨0, 0, Int.tdiv nowNanos swc.WindowSize⟩

/-- SlidingWindowCounter.Allow on the state read from the store. -/
def SlidingWindowCounter.Allow (swc : SlidingWindowCounter) (nowNanos : Int)
    (st : Option SlidingWindowCounterBucket) :
    Result × SlidingWindowCounterBucket × Int :=
  swc.AllowCore nowNanos (st.getD (swc.FreshBucket nowNanos))

/-- A sequence of sliding-window-counter Allow calls threading the persisted
state. -/
def SlidingWindowCounter.Run (swc : SlidingWindowCounter) :
    List Int → Option SlidingWindowCounterBucket →
    List Result × Option SlidingWindowCounterBucket
  | [], st => ([], st)
  | t :: ts, st =>
    let step := swc.Allow t st
    let rest := swc.Run ts (some step.2.1)
    (step.1 :: rest.1, rest.2)

/-- SlidingWindowCounter.Allow including the store interaction (part_009 lines
45-73): any Get error is replaced by a fresh state; only a Set failure is
propagated. -/
def SlidingWindowCounter.AllowStore (swc : SlidingWindowCounter) (now : Int)
    (g : GetOutcome SlidingWindowCounterBucket) (setOk : Bool) :
    Except Unit (Result × SlidingWindowCounterBucket × Int) :=
  let bucket :=
    match g with
    | .found b => b
    | .notFound => swc.FreshBucket now
    | .storeError => swc.FreshBucket now
  let step := swc.AllowCore now bucket
  if setOk then .ok step else .error ()

/-- Number of calls of a run from a never-seen key that are allowed and whose
instant lies in the half-open interval [lo, lo + len). -/
def SlidingWindowCounter.AllowedInInterval (swc : SlidingWindowCounter)
    (times : List Int) (lo len : Int) : ℕ :=
  ((times.zip (swc.Run times none).1).filter
    (fun p => p.2.Allowed && decide (lo ≤ p.1) && decide (p.1 < lo + len))).length

/-! ## Leaky bucket (src/algorithms/leakyBucket.go) -/

/-- Per-key leaky-bucket state (struct LeakyBucketUser: Queue, LastLeak). -/
structure LeakyBucketUser where
  Queue : Int
  LastLeak : Int
  deriving Repr, DecidableEq

/-- Leaky-bucket engine configuration (Capacity, Rate). -/
structure LeakyBucket where
  Capacity : Int
  Rate : Int
  deriving Repr, DecidableEq

/-- LeakyBucket.Allow after the state is loaded (leakyBucket.go lines 61-94):
leak ⌊elapsedSeconds × rate⌋ requests (the float product is modelled exactly and
truncated toward zero like Go's int conversion), clamp the queue at 0, set
lastLeak = now, enqueue and allow iff queue < capacity; deny path returns
retryAfter = Duration(1 second / rate).  The persisted TTL is a constant 1 hour. -/
def LeakyBucket.AllowCore (lb : LeakyBucket) (now : Int) (b0 : LeakyBucketUser) :
    Result × LeakyBucketUser :=
  let leaked := Int.tdiv ((now - b0.LastLeak) * lb.Rate) nsPerSec
  let q1 := b0.Queue - leaked
  let q2 := if q1 < 0 then 0 else q1
  if q2 < lb.Capacity then
    (⟨true, lb.Capacity, lb.Capacity - (q2 + 1), 0⟩, ⟨q2 + 1, now⟩)
  else
    (⟨false, lb.Capacity, 0, invRateNanos lb.Rate⟩, ⟨q2, now⟩)

/-- LeakyBucket.Allow on the state read from the store (fresh state is queue = 0,
lastLeak = now). -/
def LeakyBucket.Allow (lb : LeakyBucket) (now : Int) (st : Option LeakyBucketUser) :
    Result × LeakyBucketUser :=
  lb.AllowCore now (st.getD ⟨0, now⟩)

/-- A sequence of leaky-bucket Allow calls threading the persisted state. -/
def LeakyBucket.Run (lb : LeakyBucket) : List Int → Option LeakyBucketUser →
    List Result × Option LeakyBucketUser
  | [], st => ([], st)
  | t :: ts, st =>
    let step := lb.Allow t st
    let rest := lb.Run ts (some step.2)
    (step.1 :: rest.1, rest.2)

/-- LeakyBucket.Allow including the store interaction (leakyBucket.go lines
39-59): any Get error is replaced by a fresh state; only a Set failure is
propagated. -/
def LeakyBucket.AllowStore (lb : LeakyBucket) (now : Int)
    (g : GetOutcome LeakyBucketUser) (setOk : Bool) :
    Except Unit (Result × LeakyBucketUser) :=
  let bucket :=
    match g with
    | .found b => b
    | .notFound => (⟨0, now⟩ : LeakyBucketUser)
    | .storeError => (⟨0, now⟩ : LeakyBucketUser)
  let step := lb.AllowCore now bucket
  if setOk then .ok step else .error ()

/-! ## Store records and Reset (src/unnamed/part_002 MemoryStore, part_010 and
leakyBucket.go Reset) -/

/-- A stored record: the value and its absolute expiration instant
(MemoryStore entry). -/
structure StoreEntry (α : Type) where
  Value : α
  Expiration : Int

/-- A record is live when it is present and not yet expired (MemoryStore treats
`now.After(expiration)`, i.e. now > expiration, as expired). -/
def IsLive {α : Type} (s : Option (StoreEntry α)) (now : Int) : Bool :=
  match s with
  | none => false
  | some e => decide (now ≤ e.Expiration)

/-- MemoryStore.Exists: false for an absent or expired record (an expired record
is deleted on the spot); true otherwise. -/
def StoreExists {α : Type} (s : Option (StoreEntry α)) (now : Int) :
    Bool × Option (StoreEntry α) :=
  match s with
  | none => (false, none)
  | some e => if e.Expiration < now then (false, none) else (true, some e)

/-- The value an engine's later Get would read from the store: none when absent
or expired. -/
def StoreGetValue {α : Type} (s : Option (StoreEntry α)) (now : Int) : Option α :=
  match s with
  | none => none
  | some e => if e.Expiration < now then none else some e.Value

/-- Outcome of a Reset call. -/
inductive ResetOutcome where
  | ok
  | notFound
  deriving Repr, DecidableEq

/-- The Reset shared by the store-backed engines (part_010 lines 89-100,
leakyBucket.go lines 97-110): Exists, then an error `bucket for key does not
exist` when absent, else Delete. -/
def ResetOp {α : Type} (s : Option (StoreEntry α)) (now : Int) :
    ResetOutcome × Option (StoreEntry α) :=
  let ex := StoreExists s now
  if ex.1 then (.ok, none) else (.notFound, ex.2)

/-- TokenBucket.Reset (part_010 lines 89-100). -/
def TokenBucket.Reset (s : Option (StoreEntry Buckets)) (now : Int) :
    ResetOutcome × Option (StoreEntry Buckets) :=
  ResetOp s now

/-- LeakyBucket.Reset (leakyBucket.go lines 97-110). -/
def LeakyBucket.Reset (s : Option (StoreEntry LeakyBucketUser)) (now : Int) :
    ResetOutcome × Option (StoreEntry LeakyBucketUser) :=
  ResetOp s now

/-- The invariant of claim C3 on a single decision: remaining is never negative
and retryAfter is zero exactly when the request is allowed. -/
abbrev DecisionOK (r : Result) : Prop :=
  0 ≤ r.Remaining ∧ (r.RetryAfter = 0 ↔ r.Allowed = true)

/-! ## Basic token-bucket lemmas -/

lemma TokenBucket.allow_same_time (tb : TokenBucket) (t m : Int)
    (h0 : 0 < m) (hC : m ≤ tb.Capacity) :
    tb.Allow t (some ⟨m, t⟩) = (⟨true, tb.Capacity, m - 1, 0⟩, ⟨m - 1, t⟩) := by
  simp only [Allow, AllowCore, Option.getD_some]
  have h1 : t - t = 0 := by ring
  rw [h1, Int.zero_tdiv, Int.zero_mul]
  have h2 : min 0 (tb.Capacity - m) = 0 := by omega
  rw [h2]
  simp [h0]

lemma TokenBucket.run_replicate (tb : TokenBucket) (t : Int) :
    ∀ (N : ℕ) (m : Int), (N : Int) ≤ m → m ≤ tb.Capacity →
      tb.Run (List.replicate N t) (some ⟨m, t⟩) =
        ((List.range N).map (fun i => ⟨true, tb.Capacity, m - (i + 1), 0⟩),
          some ⟨m - N, t⟩) := by
  intro N
  induction N with
  | zero => intro m _ _; simp [Run]
  | succ k ih =>
    intro m hm hC
    have h0 : 0 < m := by omega
    rw [List.replicate_succ]
    simp only [Run]
    rw [TokenBucket.allow_same_time tb t m h0 hC]
    have ihm := ih (m - 1) (by omega) (by omega)
    simp only [ihm, List.range_succ_eq_map, List.map_cons, List.map_map,
      Prod.mk.injEq, List.cons.injEq, Option.some.injEq, Buckets.mk.injEq]
    refine ⟨⟨?_, ?_⟩, ?_, trivial⟩
    · norm_num
    · apply List.map_congr_left
      intro i _
      simp only [Function.comp_apply]
      congr 1
      push_cast
      ring
    · push_cast
      ring

lemma TokenBucket.run_append (tb : TokenBucket) :
    ∀ (l₁ l₂ : List Int) (st : Option Buckets),
      tb.Run (l₁ ++ l₂) st =
        ((tb.Run l₁ st).1 ++ (tb.Run l₂ (tb.Run l₁ st).2).1,
          (tb.Run l₂ (tb.Run l₁ st).2).2) := by
  intro l₁
  induction l₁ with
  | nil => intro l₂ st; simp [Run]
  | cons t ts ih => intro l₂ st; simp [Run, ih]

/-- The first call of a run on a never-seen key behaves like a call on the
freshly initialized bucket for that instant. -/
lemma TokenBucket.run_none_cons (tb : TokenBucket) (t : Int) (ts : List Int) :
    tb.Run (t :: ts) none = tb.Run (t :: ts) (some (tb.FreshBucket t)) := rfl

/-! ## C1 -/

/-- C1: for capacity C ≥ 1 and any refill rate, starting from no prior state, a
sequence of N ≤ C Allow calls with zero elapsed time is fully allowed with
remaining C-1, C-2, ..., C-N, and when N = C an (N+1)-th call at the same
instant is denied. -/
theorem c1_token_bucket (C r t : Int) (N : ℕ) (hC : 1 ≤ C) (hN : (N : Int) ≤ C) :
    (TokenBucket.Run ⟨C, r⟩ (List.replicate N t) none).1 =
      (List.range N).map (fun i => ⟨true, C, C - (i + 1), 0⟩) ∧
    ((N : Int) = C →
      ((TokenBucket.Run ⟨C, r⟩ (List.replicate (N + 1) t) none).1.map
          Result.Allowed).getLast? = some false) := by
  constructor
  · cases N with
    | zero => simp [TokenBucket.Run]
    | succ k =>
      have hcons : List.replicate (k + 1) t = t :: List.replicate k t := by
        simp [List.replicate_succ]
      rw [hcons, TokenBucket.run_none_cons, ← hcons]
      have hrep := TokenBucket.run_replicate ⟨C, r⟩ t (k + 1) C hN le_rfl
      simp only [TokenBucket.FreshBucket]
      rw [hrep]
  · intro hNC
    have hsplit : List.replicate (N + 1) t = List.replicate N t ++ [t] := by
      rw [List.replicate_succ' (n := N)]
    rw [hsplit]
    cases N with
    | zero => exact absurd hNC.symm (by omega)
    | succ k =>
      have hcons : List.replicate (k + 1) t = t :: List.replicate k t := by
        simp [List.replicate_succ]
      rw [TokenBucket.run_append]
      conv_lhs => rw [hcons, TokenBucket.run_none_cons, ← hcons]
      have hrep := TokenBucket.run_replicate ⟨C, r⟩ t (k + 1) C hNC.le le_rfl
      simp only [TokenBucket.FreshBucket]
      have hCk : C - ((k : Int) + 1) = 0 := by push_cast at hNC ⊢; omega
      rw [hrep]
      simp only [Nat.cast_add, Nat.cast_one, hCk]
      have hdeny : TokenBucket.Run ⟨C, r⟩ [t] (some ⟨0, t⟩) =
          ([⟨false, C, 0, invRateNanos r⟩], some ⟨0, t⟩) := by
        simp only [TokenBucket.Run, TokenBucket.Allow, TokenBucket.AllowCore,
          Option.getD_some]
        have h1 : t - t = 0 := by ring
        rw [h1, Int.zero_tdiv, Int.zero_mul]
        have h2 : min 0 (C - 0) = 0 := by omega
        rw [h2]
        norm_num
      rw [hdeny]
      simp [List.getLast?_concat]

/-- Witness for C1 at capacity 3, rate 5: three calls at one instant are allowed
with remaining 2, 1, 0 and the fourth is denied. -/
theorem c1_token_bucket_witness :
    (TokenBucket.Run ⟨3, 5⟩ (List.replicate 3 0) none).1 =
      (List.range 3).map (fun i => ⟨true, 3, 3 - ((i : Int) + 1), 0⟩) ∧
    ((TokenBucket.Run ⟨3, 5⟩ (List.replicate 4 0) none).1.map
        Result.Allowed).getLast? = some false := by
  have h := c1_token_bucket 3 5 0 3 (by norm_num) (by norm_num)
  exact ⟨h.1, h.2 (by norm_num)⟩

/-! ## Arithmetic helper lemmas -/

/-- Truncation toward zero agrees with the floor on nonnegative rationals. -/
lemma ratTrunc_eq_floor (q : ℚ) (hq : 0 ≤ q) : ratTrunc q = ⌊q⌋ := by
  rw [ratTrunc, Rat.floor_def, Int.tdiv_eq_ediv (Rat.num_nonneg.mpr hq) (by positivity)]

/-- The leak computation `int(elapsedSeconds * rate)` of the Go source equals the
truncated integer division of elapsed nanoseconds times rate. -/
lemma floor_elapsed_mul_rate (a r : Int) (ha : 0 ≤ a) (hr : 0 ≤ r) :
    ⌊((a : ℚ) / (nsPerSec : ℚ)) * (r : ℚ)⌋ = Int.tdiv (a * r) nsPerSec := by
  have h1 : ((a : ℚ) / (nsPerSec : ℚ)) * (r : ℚ) =
      ((a * r : Int) : ℚ) / ((1000000000 : ℕ) : ℚ) := by
    push_cast [nsPerSec]
    ring
  rw [h1, Rat.floor_intCast_div_natCast,
    Int.tdiv_eq_ediv (by positivity) (by norm_num [nsPerSec])]
  norm_num [nsPerSec]

/-! ## C4 -/

/-- C4 counterexample: with a failing store Get (a failure other than absence)
the token bucket does NOT propagate the error — it substitutes a fresh full
bucket and returns a successful allowed decision, contradicting the claim. -/
theorem c4_counterexample :
    TokenBucket.AllowStore ⟨5, 1⟩ 0 GetOutcome.storeError true =
      Except.ok (⟨true, 5, 4, 0⟩, ⟨4, 0⟩) := rfl

/-- C4 amended: for the token-bucket, leaky-bucket and sliding-window-counter
engines, a Get failure of any kind is treated exactly like an absent key — the
engine substitutes a fresh default state and continues; only a Set failure is
propagated to the caller (with a zero-value Decision). -/
theorem c4_amended :
    (∀ (tb : TokenBucket) (now : Int) (setOk : Bool),
      tb.AllowStore now GetOutcome.storeError setOk =
        tb.AllowStore now GetOutcome.notFound setOk) ∧
    (∀ (tb : TokenBucket) (now : Int) (g : GetOutcome Buckets),
      tb.AllowStore now g false = Except.error ()) ∧
    (∀ (lb : LeakyBucket) (now : Int) (setOk : Bool),
      lb.AllowStore now GetOutcome.storeError setOk =
        lb.AllowStore now GetOutcome.notFound setOk) ∧
    (∀ (lb : LeakyBucket) (now : Int) (g : GetOutcome LeakyBucketUser),
      lb.AllowStore now g false = Except.error ()) ∧
    (∀ (swc : SlidingWindowCounter) (now : Int) (setOk : Bool),
      swc.AllowStore now GetOutcome.storeError setOk =
        swc.AllowStore now GetOutcome.notFound setOk) ∧
    (∀ (swc : SlidingWindowCounter) (now : Int)
        (g : GetOutcome SlidingWindowCounterBucket),
      swc.AllowStore now g false = Except.error ()) := by
  refine ⟨fun tb now setOk => rfl, fun tb now g => ?_,
    fun lb now setOk => rfl, fun lb now g => ?_,
    fun swc now setOk => rfl, fun swc now g => ?_⟩ <;>
    simp [TokenBucket.AllowStore, LeakyBucket.AllowStore,
      SlidingWindowCounter.AllowStore]

/-! ## C5 -/

/-- C5 counterexample: the seconds-based fixed-window engine
(src/algorithms/fixedWindow.go), limit 1, windowSize 10 s — a second call at
now = 5 s is denied with retryAfter = the full windowSize (10 s), not the time
until the start of the next window ((0+1)×10s − 5s = 5 s) as claimed. -/
theorem c5_counterexample :
    (FixedWindowSec.Run ⟨1, 10 * nsPerSec⟩ [5, 5] none).1 =
      [⟨true, 1, 0, 0⟩, ⟨false, 1, 0, 10 * nsPerSec⟩] ∧
    (10 * nsPerSec : Int) ≠
      (Int.tdiv 5 10 + 1) * (10 * nsPerSec) - 5 * nsPerSec := by decide

/-- C5 amended: both fixed-window variants return remaining = max(0, limit −
count) with the post-increment count on an allowed call; on denial the
nanosecond variant (tokenBucket.go lines 206-265) returns retryAfter =
(windowIndex+1)×windowSize − now, while the seconds variant (fixedWindow.go)
returns retryAfter = windowSize. -/
theorem c5_fixed_window_amended :
    (∀ (fw : FixedWindow) (now : Int) (st : Option FixedWindowBucket),
      ((fw.Allow now st).1.Allowed = true →
        (fw.Allow now st).1.Remaining =
          max 0 (fw.Limit - (fw.Allow now st).2.1.Count)) ∧
      ((fw.Allow now st).1.Allowed = false →
        (fw.Allow now st).1.RetryAfter =
          (Int.tdiv now fw.WindowSize + 1) * fw.WindowSize - now)) ∧
    (∀ (fw : FixedWindowSec) (now : Int) (st : Option FixedWindowBucket),
      ((fw.Allow now st).1.Allowed = true →
        (fw.Allow now st).1.Remaining =
          max 0 (fw.Limit - (fw.Allow now st).2.1.Count)) ∧
      ((fw.Allow now st).1.Allowed = false →
        (fw.Allow now st).1.RetryAfter = fw.WindowSize)) := by
  constructor
  · intro fw now st
    simp only [FixedWindow.Allow, FixedWindow.AllowCore]
    split <;> split <;>
      refine ⟨fun h => ?_, fun h => ?_⟩ <;> simp_all
  · intro fw now st
    simp only [FixedWindowSec.Allow, FixedWindowSec.AllowCore]
    split <;> split <;>
      refine ⟨fun h => ?_, fun h => ?_⟩ <;> simp_all

/-- Witness for the amended C5: a concrete allowed call on the nanosecond
variant and a concrete denied call on each variant. -/
theorem c5_fixed_window_amended_witness :
    (FixedWindow.Allow ⟨5, 10⟩ 3 (some ⟨2, 0⟩)).1.Remaining =
      max 0 (5 - (FixedWindow.Allow ⟨5, 10⟩ 3 (some ⟨2, 0⟩)).2.1.Count) ∧
    (FixedWindow.Allow ⟨1, 10⟩ 3 (some ⟨1, 0⟩)).1.RetryAfter =
      (Int.tdiv 3 10 + 1) * 10 - 3 ∧
    (FixedWindowSec.Allow ⟨1, 10 * nsPerSec⟩ 5 (some ⟨1, 0⟩)).1.RetryAfter =
      10 * nsPerSec :=
  ⟨(c5_fixed_window_amended.1 ⟨5, 10⟩ 3 (some ⟨2, 0⟩)).1 (by decide),
    (c5_fixed_window_amended.1 ⟨1, 10⟩ 3 (some ⟨1, 0⟩)).2 (by decide),
    (c5_fixed_window_amended.2 ⟨1, 10 * nsPerSec⟩ 5 (some ⟨1, 0⟩)).2 (by decide)⟩

/-! ## C7 -/

/-- C7: the leaky bucket computes leaked = ⌊elapsedSeconds × rate⌋, clamps the
queue at 0, stamps lastLeak = now, allows iff queue < capacity (then enqueues,
remaining = capacity − queue after the enqueue), and a denial returns retryAfter
= 1 second / rate (integer duration division); moreover at capacity 5 and rate
5/s, filling the bucket and waiting one second drains it so the next call is
allowed with queue 1. -/
theorem c7_leaky_bucket :
    (∀ (lb : LeakyBucket) (now : Int) (b0 : LeakyBucketUser),
      b0.LastLeak ≤ now → 0 ≤ lb.Rate →
      ((lb.AllowCore now b0).1.Allowed = true ↔
        max 0 (b0.Queue - ⌊((now - b0.LastLeak : ℚ) / (nsPerSec : ℚ)) *
          (lb.Rate : ℚ)⌋) < lb.Capacity) ∧
      (lb.AllowCore now b0).2.LastLeak = now ∧
      ((lb.AllowCore now b0).1.Allowed = true →
        (lb.AllowCore now b0).2.Queue =
          max 0 (b0.Queue - ⌊((now - b0.LastLeak : ℚ) / (nsPerSec : ℚ)) *
            (lb.Rate : ℚ)⌋) + 1 ∧
        (lb.AllowCore now b0).1.Remaining =
          lb.Capacity - (lb.AllowCore now b0).2.Queue) ∧
      ((lb.AllowCore now b0).1.Allowed = false →
        (lb.AllowCore now b0).2.Queue =
          max 0 (b0.Queue - ⌊((now - b0.LastLeak : ℚ) / (nsPerSec : ℚ)) *
            (lb.Rate : ℚ)⌋) ∧
        (1 ≤ lb.Rate →
          (lb.AllowCore now b0).1.RetryAfter = Int.tdiv nsPerSec lb.Rate))) ∧
    (LeakyBucket.Run ⟨5, 5⟩ [0, 0, 0, 0, 0, nsPerSec] none).1.getLast? =
      some ⟨true, 5, 4, 0⟩ ∧
    (LeakyBucket.Run ⟨5, 5⟩ [0, 0, 0, 0, 0, nsPerSec] none).2 =
      some ⟨1, nsPerSec⟩ := by
  refine ⟨?_, by decide, by decide⟩
  intro lb now b0 hnow hr
  have hfl : ⌊((now - b0.LastLeak : ℚ) / (nsPerSec : ℚ)) * (lb.Rate : ℚ)⌋ =
      Int.tdiv ((now - b0.LastLeak) * lb.Rate) nsPerSec := by
    have := floor_elapsed_mul_rate (now - b0.LastLeak) lb.Rate (by omega) hr
    push_cast at this ⊢
    exact this
  rw [hfl]
  simp only [LeakyBucket.AllowCore]
  have hq : (if b0.Queue - Int.tdiv ((now - b0.LastLeak) * lb.Rate) nsPerSec < 0
      then 0 else b0.Queue - Int.tdiv ((now - b0.LastLeak) * lb.Rate) nsPerSec) =
      max 0 (b0.Queue - Int.tdiv ((now - b0.LastLeak) * lb.Rate) nsPerSec) := by
    omega
  rw [hq]
  split
  · rename_i hlt
    refine ⟨by simpa using hlt, rfl, fun _ => ⟨rfl, rfl⟩, fun h => by simp at h⟩
  · rename_i hge
    refine ⟨by simpa using hge, rfl, fun h => by simp at h, fun _ => ⟨rfl, fun hr1 => ?_⟩⟩
    simp only [invRateNanos, if_neg (by omega : ¬ lb.Rate = 0)]

/-- Witness for C7 at capacity 3, rate 2: one allowed call and one denied call
with explicit state. -/
theorem c7_leaky_bucket_witness :
    ((LeakyBucket.AllowCore ⟨3, 2⟩ nsPerSec ⟨2, 0⟩).1.Allowed = true ↔
      max 0 (2 - ⌊((nsPerSec - 0 : ℚ) / (nsPerSec : ℚ)) * (2 : ℚ)⌋) < 3) ∧
    ((LeakyBucket.AllowCore ⟨3, 2⟩ 0 ⟨3, 0⟩).1.Allowed = false →
      (LeakyBucket.AllowCore ⟨3, 2⟩ 0 ⟨3, 0⟩).2.Queue =
        max 0 (3 - ⌊((0 - 0 : ℚ) / (nsPerSec : ℚ)) * (2 : ℚ)⌋) ∧
      (1 ≤ (2 : Int) →
        (LeakyBucket.AllowCore ⟨3, 2⟩ 0 ⟨3, 0⟩).1.RetryAfter =
          Int.tdiv nsPerSec 2)) := by
  constructor
  · have h := (c7_leaky_bucket.1 ⟨3, 2⟩ nsPerSec ⟨2, 0⟩ (by norm_num [nsPerSec])
      (by norm_num)).1
    simpa using h
  · have h := (c7_leaky_bucket.1 ⟨3, 2⟩ 0 ⟨3, 0⟩ le_rfl (by norm_num)).2.2.2
    simpa using h

/-! ## C8 -/

/-- C8: the sliding-window log discards every stored timestamp ≤ now −
windowSize, allows iff the remaining count is strictly below the limit (then
appends now), persists the filtered list also on denial; and with limit 3 and a
1 s window, three rapid calls are allowed, a fourth immediate call is denied,
and a call a full window later is allowed with only its own timestamp stored. -/
theorem c8_sliding_window_log :
    (∀ (sw : SlidingWindow) (now : Int) (st : Option SlidingWindowBucket),
      ((sw.Allow now st).1 = true ↔
        (((st.getD ⟨[]⟩).Timestamps.filter
            (fun ts => !(decide (ts ≤ now - sw.WindowSize)))).length : Int) <
          sw.Limit) ∧
      (sw.Allow now st).2.1.Timestamps =
        (if (((st.getD ⟨[]⟩).Timestamps.filter
              (fun ts => !(decide (ts ≤ now - sw.WindowSize)))).length : Int) <
            sw.Limit
          then ((st.getD ⟨[]⟩).Timestamps.filter
              (fun ts => !(decide (ts ≤ now - sw.WindowSize)))) ++ [now]
          else (st.getD ⟨[]⟩).Timestamps.filter
              (fun ts => !(decide (ts ≤ now - sw.WindowSize))))) ∧
    SlidingWindow.Run ⟨3, nsPerSec⟩ [0, 0, 0, 0, nsPerSec] none =
      ([true, true, true, false, true], some ⟨[nsPerSec]⟩) := by
  refine ⟨?_, by decide⟩
  intro sw now st
  have hf : (st.getD ⟨[]⟩).Timestamps.filter
        (fun ts => decide (now - sw.WindowSize < ts)) =
      (st.getD ⟨[]⟩).Timestamps.filter
        (fun ts => !(decide (ts ≤ now - sw.WindowSize))) := by
    apply List.filter_congr
    intro x _
    have hiff : (now - sw.WindowSize < x) ↔ ¬(x ≤ now - sw.WindowSize) := by omega
    simp only [hiff, decide_not]
  simp only [SlidingWindow.Allow, hf]
  split
  · rename_i h
    exact ⟨by simpa using h, by simp [if_pos h]⟩
  · rename_i h
    exact ⟨by simpa using h, by simp [if_neg h]⟩

/-! ## Sliding-window-counter estimate lemmas -/

lemma SlidingWindowCounter.overlap_pos (swc : SlidingWindowCounter) (now : Int)
    (hW : 0 < swc.WindowSize) :
    0 < swc.WindowSize - Int.tmod now swc.WindowSize := by
  have h := Int.tmod_lt_of_pos now hW
  omega

lemma SlidingWindowCounter.estimate_nonneg (swc : SlidingWindowCounter)
    (now : Int) (b : SlidingWindowCounterBucket) (hW : 0 < swc.WindowSize)
    (hp : 0 ≤ b.PreviousCount) (hc : 0 ≤ b.CurrentCount) :
    0 ≤ swc.Estimate now b := by
  have h1 := swc.overlap_pos now hW
  have hp2 : (0 : ℚ) ≤ (b.PreviousCount : ℚ) := by exact_mod_cast hp
  have hc2 : (0 : ℚ) ≤ (b.CurrentCount : ℚ) := by exact_mod_cast hc
  have ho : (0 : ℚ) ≤ ((swc.WindowSize - Int.tmod now swc.WindowSize : Int) : ℚ) := by
    exact_mod_cast h1.le
  have hw2 : (0 : ℚ) ≤ ((swc.WindowSize : Int) : ℚ) := by exact_mod_cast hW.le
  unfold Estimate
  push_cast at ho hw2 ⊢
  exact add_nonneg (mul_nonneg hp2 (div_nonneg ho hw2)) hc2

lemma SlidingWindowCounter.curr_le_estimate (swc : SlidingWindowCounter)
    (now : Int) (b : SlidingWindowCounterBucket) (hW : 0 < swc.WindowSize)
    (hp : 0 ≤ b.PreviousCount) :
    (b.CurrentCount : ℚ) ≤ swc.Estimate now b := by
  have h1 := swc.overlap_pos now hW
  have hp2 : (0 : ℚ) ≤ (b.PreviousCount : ℚ) := by exact_mod_cast hp
  have ho : (0 : ℚ) ≤ ((swc.WindowSize - Int.tmod now swc.WindowSize : Int) : ℚ) := by
    exact_mod_cast h1.le
  have hw2 : (0 : ℚ) ≤ ((swc.WindowSize : Int) : ℚ) := by exact_mod_cast hW.le
  unfold Estimate
  push_cast at ho hw2 ⊢
  nlinarith [mul_nonneg hp2 (div_nonneg ho hw2)]

lemma SlidingWindowCounter.curr_lt_of_estimate_lt (swc : SlidingWindowCounter)
    (now : Int) (b : SlidingWindowCounterBucket) (hW : 0 < swc.WindowSize)
    (hp : 0 ≤ b.PreviousCount)
    (hest : swc.Estimate now b < (swc.Limit : ℚ)) :
    b.CurrentCount < swc.Limit := by
  have h := lt_of_le_of_lt (swc.curr_le_estimate now b hW hp) hest
  exact_mod_cast h

lemma SlidingWindowCounter.shift_prev_nonneg (swc : SlidingWindowCounter)
    (now : Int) (b0 : SlidingWindowCounterBucket) (hp : 0 ≤ b0.PreviousCount)
    (hc : 0 ≤ b0.CurrentCount) : 0 ≤ (swc.Shift now b0).PreviousCount := by
  simp only [Shift]
  split <;> simpa

lemma SlidingWindowCounter.shift_curr_nonneg (swc : SlidingWindowCounter)
    (now : Int) (b0 : SlidingWindowCounterBucket) (hc : 0 ≤ b0.CurrentCount) :
    0 ≤ (swc.Shift now b0).CurrentCount := by
  simp only [Shift]
  split <;> simp_all

/-! ## C6 -/

/-- C6: the sliding-window counter, after shifting on a window change, computes
estimate = previousCount × ((windowSize − timeIntoWindow)/windowSize) +
currentCount, allows exactly when estimate < limit (strict), on an allowed call
increments currentCount and returns remaining = limit − ⌊estimate⌋ for the
pre-increment estimate, and persists with TTL = 2 × windowSize. -/
theorem c6_sliding_window_counter (swc : SlidingWindowCounter) (now : Int)
    (b0 : SlidingWindowCounterBucket) (hW : 0 < swc.WindowSize)
    (hp : 0 ≤ b0.PreviousCount) (hc : 0 ≤ b0.CurrentCount) :
    swc.Shift now b0 =
      (if Int.tdiv now swc.WindowSize ≠ b0.CurrentWindow
        then ⟨b0.CurrentCount, 0, Int.tdiv now swc.WindowSize⟩ else b0) ∧
    ((swc.AllowCore now b0).1.Allowed = true ↔
      swc.Estimate now (swc.Shift now b0) < (swc.Limit : ℚ)) ∧
    (swc.Estimate now (swc.Shift now b0) < (swc.Limit : ℚ) →
      (swc.AllowCore now b0).2.1.CurrentCount = (swc.Shift now b0).CurrentCount + 1 ∧
      (swc.AllowCore now b0).1.Remaining =
        swc.Limit - ⌊swc.Estimate now (swc.Shift now b0)⌋) ∧
    (swc.AllowCore now b0).2.2 = 2 * swc.WindowSize := by
  have hest0 : 0 ≤ swc.Estimate now (swc.Shift now b0) :=
    swc.estimate_nonneg now _ hW (swc.shift_prev_nonneg now b0 hp hc)
      (swc.shift_curr_nonneg now b0 hc)
  refine ⟨rfl, ?_, ?_, ?_⟩
  · simp only [SlidingWindowCounter.AllowCore]
    split
    · rename_i h
      simpa using h
    · rename_i h
      simpa using h
  · intro hlt
    simp only [SlidingWindowCounter.AllowCore, if_pos hlt]
    exact ⟨by trivial, by rw [ratTrunc_eq_floor _ hest0]⟩
  · simp only [SlidingWindowCounter.AllowCore]
    split <;> rfl

/-- Witness for C6 at limit 2, window 10, now 14, state (2, 0, 0): the window
shifts, the estimate is 2 × 6/10 = 1.2 < 2, the call is allowed and remaining
is 2 − ⌊1.2⌋ = 1. -/
theorem c6_sliding_window_counter_witness :
    (SlidingWindowCounter.Shift ⟨2, 10⟩ 14 ⟨0, 2, 0⟩ =
      (if Int.tdiv 14 10 ≠ (0 : Int)
        then ⟨2, 0, Int.tdiv 14 10⟩ else ⟨0, 2, 0⟩)) ∧
    ((SlidingWindowCounter.AllowCore ⟨2, 10⟩ 14 ⟨0, 2, 0⟩).1.Allowed = true ↔
      SlidingWindowCounter.Estimate ⟨2, 10⟩ 14
        (SlidingWindowCounter.Shift ⟨2, 10⟩ 14 ⟨0, 2, 0⟩) < (2 : ℚ)) ∧
    (SlidingWindowCounter.AllowCore ⟨2, 10⟩ 14 ⟨0, 2, 0⟩).2.2 = 2 * 10 := by
  have h := c6_sliding_window_counter ⟨2, 10⟩ 14 ⟨0, 2, 0⟩ (by norm_num)
    (by norm_num) (by norm_num)
  exact ⟨h.1, h.2.1, h.2.2.2⟩

/-! ## C2 -/

lemma tdiv_le_tdiv_right {a c W : Int} (ha : 0 ≤ a) (hac : a ≤ c) (hW : 0 < W) :
    Int.tdiv a W ≤ Int.tdiv c W := by
  rw [Int.tdiv_eq_ediv ha hW.le, Int.tdiv_eq_ediv (le_trans ha hac) hW.le]
  exact Int.ediv_le_ediv hW hac

lemma tdiv_eq_iff_interval {t W k : Int} (ht : 0 ≤ t) (hW : 0 < W) :
    Int.tdiv t W = k ↔ (k * W ≤ t ∧ t < k * W + W) := by
  rw [Int.tdiv_eq_ediv ht hW.le]
  have h1 : k ≤ t / W ↔ k * W ≤ t := Int.le_ediv_iff_mul_le hW
  have h2 : t / W < k + 1 ↔ t < (k + 1) * W := Int.ediv_lt_iff_lt_mul hW
  have h3 : (k + 1) * W = k * W + W := by ring
  constructor
  · intro h
    refine ⟨h1.mp h.ge, ?_⟩
    have := h2.mp (by omega)
    linarith
  · intro h
    have hk1 : k ≤ t / W := h1.mpr h.1
    have hk2 : t / W < k + 1 := h2.mpr (by linarith [h.2])
    omega

lemma SlidingWindowCounter.shift_window (swc : SlidingWindowCounter) (t : Int)
    (b : SlidingWindowCounterBucket) :
    (swc.Shift t b).CurrentWindow = Int.tdiv t swc.WindowSize := by
  simp only [Shift]
  split
  · rfl
  · rename_i h
    push_neg at h
    exact h.symm

lemma SlidingWindowCounter.shift_curr_le (swc : SlidingWindowCounter) (t : Int)
    (b : SlidingWindowCounterBucket) (hc : 0 ≤ b.CurrentCount)
    (hcL : b.CurrentCount ≤ swc.Limit) :
    (swc.Shift t b).CurrentCount ≤ swc.Limit := by
  simp only [Shift]
  split
  · simpa using le_trans hc hcL
  · exact hcL

/-- Core counting bound for the sliding-window counter: starting from any state
whose counts are nonnegative and whose current count is within the limit, for
nondecreasing nonnegative call instants at window indices at or beyond the
state's current window, the number of allowed calls falling in the aligned
window j is bounded by the limit (with the current window's budget reduced by
the already-accumulated count, and windows before the current one closed). -/
lemma SlidingWindowCounter.count_bound (swc : SlidingWindowCounter)
    (hW : 0 < swc.WindowSize) :
    ∀ (ts : List Int) (b : SlidingWindowCounterBucket),
      (∀ t ∈ ts, 0 ≤ t) → ts.Pairwise (· ≤ ·) →
      0 ≤ b.PreviousCount → 0 ≤ b.CurrentCount → b.CurrentCount ≤ swc.Limit →
      (∀ t ∈ ts, b.CurrentWindow ≤ Int.tdiv t swc.WindowSize) →
      ∀ j : Int,
        (j = b.CurrentWindow →
          (((ts.zip (swc.Run ts (some b)).1).filter
              (fun p => p.2.Allowed && decide (Int.tdiv p.1 swc.WindowSize = j))).length : Int) ≤
            swc.Limit - b.CurrentCount) ∧
        (b.CurrentWindow < j →
          (((ts.zip (swc.Run ts (some b)).1).filter
              (fun p => p.2.Allowed && decide (Int.tdiv p.1 swc.WindowSize = j))).length : Int) ≤
            swc.Limit) ∧
        (j < b.CurrentWindow →
          (((ts.zip (swc.Run ts (some b)).1).filter
              (fun p => p.2.Allowed && decide (Int.tdiv p.1 swc.WindowSize = j))).length : Int) ≤ 0) := by
  intro ts
  induction ts with
  | nil =>
    intro b _ _ _ hc hcL _ j
    simp only [SlidingWindowCounter.Run, List.zip_nil_left, List.filter_nil,
      List.length_nil, Nat.cast_zero]
    omega
  | cons t ts ih =>
    intro b hpos hpw hp hc hcL hwin j
    have htpos : 0 ≤ t := hpos t (List.mem_cons_self t ts)
    have hb1w : (swc.Shift t b).CurrentWindow = Int.tdiv t swc.WindowSize :=
      swc.shift_window t b
    have hb1p : 0 ≤ (swc.Shift t b).PreviousCount :=
      swc.shift_prev_nonneg t b hp hc
    have hb1c : 0 ≤ (swc.Shift t b).CurrentCount :=
      swc.shift_curr_nonneg t b hc
    have hb1cL : (swc.Shift t b).CurrentCount ≤ swc.Limit :=
      swc.shift_curr_le t b hc hcL
    have hbw : b.CurrentWindow ≤ Int.tdiv t swc.WindowSize :=
      hwin t (List.mem_cons_self t ts)
    have hshiftcases : swc.Shift t b = b ∨
        (b.CurrentWindow ≠ Int.tdiv t swc.WindowSize ∧
          swc.Shift t b = ⟨b.CurrentCount, 0, Int.tdiv t swc.WindowSize⟩) := by
      simp only [SlidingWindowCounter.Shift]
      by_cases hne : Int.tdiv t swc.WindowSize ≠ b.CurrentWindow
      · exact Or.inr ⟨fun h => hne h.symm, by rw [if_pos hne]⟩
      · exact Or.inl (by rw [if_neg hne])
    have hpos2 : ∀ t2 ∈ ts, 0 ≤ t2 := fun t2 ht2 => hpos t2 (List.mem_cons_of_mem _ ht2)
    have hpw2 : ts.Pairwise (· ≤ ·) := (List.pairwise_cons.mp hpw).2
    have hwmono : ∀ t2 ∈ ts, Int.tdiv t swc.WindowSize ≤ Int.tdiv t2 swc.WindowSize := by
      intro t2 ht2
      exact tdiv_le_tdiv_right htpos ((List.pairwise_cons.mp hpw).1 t2 ht2) hW
    have hL0 : 0 ≤ swc.Limit := le_trans hc hcL
    by_cases hest : swc.Estimate t (swc.Shift t b) < (swc.Limit : ℚ)
    · -- the head call is allowed
      have hcurlt : (swc.Shift t b).CurrentCount < swc.Limit :=
        swc.curr_lt_of_estimate_lt t _ hW hb1p hest
      have hAC : swc.AllowCore t b =
          (⟨true, swc.Limit, swc.Limit - ratTrunc (swc.Estimate t (swc.Shift t b)), 0⟩,
            ⟨(swc.Shift t b).PreviousCount, (swc.Shift t b).CurrentCount + 1,
              (swc.Shift t b).CurrentWindow⟩, 2 * swc.WindowSize) := by
        simp only [SlidingWindowCounter.AllowCore]
        rw [if_pos hest]
      have hIH := ih ⟨(swc.Shift t b).PreviousCount, (swc.Shift t b).CurrentCount + 1,
          (swc.Shift t b).CurrentWindow⟩ hpos2 hpw2
          (by dsimp only; exact hb1p)
          (by dsimp only; omega)
          (by dsimp only; omega)
          (by intro t2 ht2; dsimp only; rw [hb1w]; exact hwmono t2 ht2) j
      dsimp only at hIH
      rw [hb1w] at hIH
      have hrun : swc.Run (t :: ts) (some b) =
          ((swc.AllowCore t b).1 :: (swc.Run ts (some (swc.AllowCore t b).2.1)).1,
            (swc.Run ts (some (swc.AllowCore t b).2.1)).2) := rfl
      rw [hrun, hAC]
      dsimp only
      simp only [List.zip_cons_cons, List.filter_cons, Bool.true_and]
      by_cases hj : Int.tdiv t swc.WindowSize = j
      · rw [decide_eq_true hj, if_pos rfl]
        simp only [List.length_cons, Nat.cast_add, Nat.cast_one]
        rcases hshiftcases with hsh | ⟨hne, hsh⟩
        · have hweq : b.CurrentWindow = Int.tdiv t swc.WindowSize := by
            rw [← hb1w, hsh]
          simp only [hsh, hweq] at hIH hcurlt ⊢
          omega
        · simp only [hsh] at hIH hcurlt ⊢
          omega
      · rw [decide_eq_false hj, if_neg Bool.false_ne_true]
        rcases hshiftcases with hsh | ⟨hne, hsh⟩
        · have hweq : b.CurrentWindow = Int.tdiv t swc.WindowSize := by
            rw [← hb1w, hsh]
          simp only [hsh, hweq] at hIH hcurlt ⊢
          omega
        · simp only [hsh] at hIH hcurlt ⊢
          omega
    · -- the head call is denied
      have hAC : swc.AllowCore t b =
          (⟨false, swc.Limit, 0,
              (Int.tdiv t swc.WindowSize + 1) * swc.WindowSize - t⟩,
            swc.Shift t b, 2 * swc.WindowSize) := by
        simp only [SlidingWindowCounter.AllowCore]
        rw [if_neg hest]
      have hIH := ih (swc.Shift t b) hpos2 hpw2 hb1p hb1c hb1cL
          (by intro t2 ht2; rw [hb1w]; exact hwmono t2 ht2) j
      rw [hb1w] at hIH
      have hrun : swc.Run (t :: ts) (some b) =
          ((swc.AllowCore t b).1 :: (swc.Run ts (some (swc.AllowCore t b).2.1)).1,
            (swc.Run ts (some (swc.AllowCore t b).2.1)).2) := rfl
      rw [hrun, hAC]
      dsimp only
      simp only [List.zip_cons_cons, List.filter_cons, Bool.false_and,
        if_neg Bool.false_ne_true]
      rcases hshiftcases with hsh | ⟨hne, hsh⟩
      · have hweq : b.CurrentWindow = Int.tdiv t swc.WindowSize := by
          rw [← hb1w, hsh]
        simp only [hsh, hweq] at hIH ⊢
        omega
      · simp only [hsh] at hIH ⊢
        omega

lemma swc_ce_step1 : SlidingWindowCounter.Allow ⟨2, 10⟩ 9 none =
    (⟨true, 2, 2, 0⟩, ⟨0, 1, 0⟩, 20) := by
  have hfr : SlidingWindowCounter.FreshBucket ⟨2, 10⟩ 9 = ⟨0, 0, 0⟩ := by
    simp [SlidingWindowCounter.FreshBucket, show Int.tdiv 9 10 = 0 from by decide]
  have hsh : SlidingWindowCounter.Shift ⟨2, 10⟩ 9 ⟨0, 0, 0⟩ = ⟨0, 0, 0⟩ := by
    simp [SlidingWindowCounter.Shift, show Int.tdiv 9 10 = 0 from by decide]
  have hest : SlidingWindowCounter.Estimate ⟨2, 10⟩ 9 ⟨0, 0, 0⟩ = 0 := by
    simp [SlidingWindowCounter.Estimate]
  have htr : ratTrunc 0 = 0 := by
    rw [ratTrunc_eq_floor _ le_rfl]
    exact Int.floor_zero
  simp only [SlidingWindowCounter.Allow, Option.getD_none, hfr,
    SlidingWindowCounter.AllowCore, hsh, hest]
  rw [if_pos (by norm_num)]
  rw [htr]
  norm_num

lemma swc_ce_step2 : SlidingWindowCounter.Allow ⟨2, 10⟩ 9 (some ⟨0, 1, 0⟩) =
    (⟨true, 2, 1, 0⟩, ⟨0, 2, 0⟩, 20) := by
  have hsh : SlidingWindowCounter.Shift ⟨2, 10⟩ 9 ⟨0, 1, 0⟩ = ⟨0, 1, 0⟩ := by
    simp [SlidingWindowCounter.Shift, show Int.tdiv 9 10 = 0 from by decide]
  have hest : SlidingWindowCounter.Estimate ⟨2, 10⟩ 9 ⟨0, 1, 0⟩ = 1 := by
    simp [SlidingWindowCounter.Estimate]
  have htr : ratTrunc 1 = 1 := by
    rw [ratTrunc_eq_floor _ zero_le_one]
    exact Int.floor_one
  simp only [SlidingWindowCounter.Allow, Option.getD_some,
    SlidingWindowCounter.AllowCore, hsh, hest]
  rw [if_pos (by norm_num)]
  rw [htr]
  norm_num

lemma swc_ce_step3 : SlidingWindowCounter.Allow ⟨2, 10⟩ 14 (some ⟨0, 2, 0⟩) =
    (⟨true, 2, 1, 0⟩, ⟨2, 1, 1⟩, 20) := by
  have hsh : SlidingWindowCounter.Shift ⟨2, 10⟩ 14 ⟨0, 2, 0⟩ = ⟨2, 0, 1⟩ := by
    simp [SlidingWindowCounter.Shift, show Int.tdiv 14 10 = 1 from by decide]
  have hest : SlidingWindowCounter.Estimate ⟨2, 10⟩ 14 ⟨2, 0, 1⟩ = 6 / 5 := by
    rw [SlidingWindowCounter.Estimate, show Int.tmod 14 10 = 4 from by decide]
    norm_num
  have htr : ratTrunc (6 / 5) = 1 := by
    rw [ratTrunc_eq_floor _ (by norm_num), Int.floor_eq_iff] <;> norm_num
  simp only [SlidingWindowCounter.Allow, Option.getD_some,
    SlidingWindowCounter.AllowCore, hsh, hest]
  rw [if_pos (by norm_num)]
  rw [htr]
  norm_num

lemma swc_ce_step4 : SlidingWindowCounter.Allow ⟨2, 10⟩ 16 (some ⟨2, 1, 1⟩) =
    (⟨true, 2, 1, 0⟩, ⟨2, 2, 1⟩, 20) := by
  have hsh : SlidingWindowCounter.Shift ⟨2, 10⟩ 16 ⟨2, 1, 1⟩ = ⟨2, 1, 1⟩ := by
    simp [SlidingWindowCounter.Shift, show Int.tdiv 16 10 = 1 from by decide]
  have hest : SlidingWindowCounter.Estimate ⟨2, 10⟩ 16 ⟨2, 1, 1⟩ = 9 / 5 := by
    rw [SlidingWindowCounter.Estimate, show Int.tmod 16 10 = 6 from by decide]
    norm_num
  have htr : ratTrunc (9 / 5) = 1 := by
    rw [ratTrunc_eq_floor _ (by norm_num), Int.floor_eq_iff] <;> norm_num
  simp only [SlidingWindowCounter.Allow, Option.getD_some,
    SlidingWindowCounter.AllowCore, hsh, hest]
  rw [if_pos (by norm_num)]
  rw [htr]
  norm_num

/-- C2 counterexample: limit 2, windowSize 10 — the calls at instants 9, 9, 14,
16 are all allowed, yet all four lie inside the single sliding interval
[9, 19) of length exactly one windowSize, exceeding the limit 2. -/
theorem c2_counterexample :
    2 < SlidingWindowCounter.AllowedInInterval ⟨2, 10⟩ [9, 9, 14, 16] 9 10 := by
  have hrun : (SlidingWindowCounter.Run ⟨2, 10⟩ [9, 9, 14, 16] none).1 =
      [⟨true, 2, 2, 0⟩, ⟨true, 2, 1, 0⟩, ⟨true, 2, 1, 0⟩, ⟨true, 2, 1, 0⟩] := by
    simp only [SlidingWindowCounter.Run, swc_ce_step1, swc_ce_step2, swc_ce_step3,
      swc_ce_step4]
  rw [SlidingWindowCounter.AllowedInInterval, hrun]
  decide

/-- C2 amended: the sliding-window-counter estimate bounds the allowed calls in
every ALIGNED window [k·windowSize, (k+1)·windowSize) by the limit; the claimed
bound over arbitrary sliding intervals of length windowSize does not hold (see
the counterexample). -/
theorem c2_sliding_window_counter_amended (swc : SlidingWindowCounter)
    (times : List Int) (hW : 0 < swc.WindowSize) (hL : 0 ≤ swc.Limit)
    (hpos : ∀ t ∈ times, 0 ≤ t) (hmono : times.Chain' (· ≤ ·)) (k : Int) :
    (swc.AllowedInInterval times (k * swc.WindowSize) swc.WindowSize : Int) ≤
      swc.Limit := by
  have hpw : times.Pairwise (· ≤ ·) := List.chain'_iff_pairwise.mp hmono
  have hconv : swc.AllowedInInterval times (k * swc.WindowSize) swc.WindowSize =
      ((times.zip (swc.Run times none).1).filter
        (fun p => p.2.Allowed && decide (Int.tdiv p.1 swc.WindowSize = k))).length := by
    unfold SlidingWindowCounter.AllowedInInterval
    congr 1
    apply List.filter_congr
    intro p hpmem
    have hpt : p.1 ∈ times := (List.of_mem_zip hpmem).1
    have hp0 : 0 ≤ p.1 := hpos p.1 hpt
    have hiff : (Int.tdiv p.1 swc.WindowSize = k) ↔
        (k * swc.WindowSize ≤ p.1 ∧ p.1 < k * swc.WindowSize + swc.WindowSize) :=
      tdiv_eq_iff_interval hp0 hW
    rcases Bool.eq_false_or_eq_true p.2.Allowed with ha | ha
    · simp only [ha, Bool.true_and]
      rw [← Bool.decide_and, decide_eq_decide]
      exact hiff.symm
    · simp [ha]
  rw [hconv]
  cases times with
  | nil => simpa [SlidingWindowCounter.Run] using hL
  | cons t ts =>
    have hrunfresh : swc.Run (t :: ts) none =
        swc.Run (t :: ts) (some (swc.FreshBucket t)) := rfl
    rw [hrunfresh]
    have hb := swc.count_bound hW (t :: ts) (swc.FreshBucket t) hpos hpw
      (by norm_num [SlidingWindowCounter.FreshBucket])
      (by norm_num [SlidingWindowCounter.FreshBucket])
      (by simpa [SlidingWindowCounter.FreshBucket] using hL)
      (by
        intro t2 ht2
        simp only [SlidingWindowCounter.FreshBucket]
        rcases List.mem_cons.mp ht2 with h | h
        · rw [h]
        · exact tdiv_le_tdiv_right (hpos t (List.mem_cons_self t ts))
            ((List.pairwise_cons.mp hpw).1 t2 h) hW) k
    simp only [SlidingWindowCounter.FreshBucket] at hb ⊢
    omega

/-! ## C3 -/

lemma lt_tdiv_add_one_mul (now W : Int) (hW : 0 < W) :
    now < (Int.tdiv now W + 1) * W := by
  have h1 := Int.tdiv_add_tmod now W
  have h2 := Int.tmod_lt_of_pos now hW
  have h3 : (Int.tdiv now W + 1) * W = W * Int.tdiv now W + W := by ring
  linarith

lemma invRateNanos_pos (r : Int) (hr0 : 0 ≤ r) (hr1 : r ≤ nsPerSec) :
    0 < invRateNanos r := by
  unfold invRateNanos
  split
  · norm_num
  · rename_i h
    have hr : 0 < r := by omega
    rw [Int.tdiv_eq_ediv (by norm_num [nsPerSec]) hr0]
    have h2 : (1 : ℤ) ≤ nsPerSec / r :=
      (Int.le_ediv_iff_mul_le hr).mpr (by linarith)
    omega

lemma TokenBucket.run_decisions_ok (tb : TokenBucket) (hC : 0 ≤ tb.Capacity)
    (hr0 : 0 ≤ tb.RefillRate) (hr1 : tb.RefillRate ≤ nsPerSec) :
    ∀ (ts : List Int) (b : Buckets), 0 ≤ b.Tokens → b.Tokens ≤ tb.Capacity →
      List.Chain' (· ≤ ·) (b.LastRefillTs :: ts) →
      ∀ r ∈ (tb.Run ts (some b)).1, DecisionOK r := by
  intro ts
  induction ts with
  | nil =>
    intro b _ _ _ r hr
    simp [TokenBucket.Run] at hr
  | cons t ts ih =>
    intro b h0 h1 hch r hr
    have hle : b.LastRefillTs ≤ t := (List.chain'_cons.mp hch).1
    have hch2 : List.Chain' (· ≤ ·) (t :: ts) := (List.chain'_cons.mp hch).2
    have hadd0 : 0 ≤ (Int.tdiv (t - b.LastRefillTs) nsPerSec) * tb.RefillRate :=
      mul_nonneg (Int.tdiv_nonneg (by omega) (by norm_num [nsPerSec])) hr0
    have hminle : min ((Int.tdiv (t - b.LastRefillTs) nsPerSec) * tb.RefillRate)
        (tb.Capacity - b.Tokens) ≤ tb.Capacity - b.Tokens := min_le_right _ _
    have hmin0 : 0 ≤ min ((Int.tdiv (t - b.LastRefillTs) nsPerSec) * tb.RefillRate)
        (tb.Capacity - b.Tokens) := le_min hadd0 (by omega)
    have hrun : tb.Run (t :: ts) (some b) =
        ((tb.AllowCore t b).1 :: (tb.Run ts (some (tb.AllowCore t b).2)).1,
          (tb.Run ts (some (tb.AllowCore t b).2)).2) := rfl
    rw [hrun] at hr
    rcases List.mem_cons.mp hr with hhead | htail
    · subst hhead
      simp only [TokenBucket.AllowCore]
      split
      · exact ⟨by dsimp only; omega, by simp⟩
      · refine ⟨by dsimp only; omega, ?_⟩
        have hpos := invRateNanos_pos tb.RefillRate hr0 hr1
        dsimp only
        simp only [show (false = true) = False from by simp, iff_false]
        omega
    · have hnew : ∀ (c : Buckets), c = (tb.AllowCore t b).2 →
          0 ≤ c.Tokens ∧ c.Tokens ≤ tb.Capacity ∧ c.LastRefillTs = t := by
        intro c hc
        subst hc
        simp only [TokenBucket.AllowCore]
        split <;> exact ⟨by dsimp only; omega, by dsimp only; omega, rfl⟩
      obtain ⟨hn0, hn1, hn2⟩ := hnew _ rfl
      exact ih (tb.AllowCore t b).2 hn0 hn1 (by rw [hn2]; exact hch2) r htail

lemma FixedWindow.allow_decision_ok (fw : FixedWindow) (hW : 0 < fw.WindowSize)
    (now : Int) (st : Option FixedWindowBucket) : DecisionOK (fw.Allow now st).1 := by
  have hret := lt_tdiv_add_one_mul now fw.WindowSize hW
  simp only [FixedWindow.Allow, FixedWindow.AllowCore]
  split <;> split
  · exact ⟨le_rfl, by
      dsimp only
      simp only [show (false = true) = False from by simp, iff_false]
      omega⟩
  · rename_i hcond
    exact ⟨by simp at hcond ⊢; omega, by simp⟩
  · exact ⟨le_rfl, by
      dsimp only
      simp only [show (false = true) = False from by simp, iff_false]
      omega⟩
  · rename_i hcond
    exact ⟨by simp at hcond ⊢; omega, by simp⟩

lemma FixedWindowSec.allow_decision_sec_ok (fw : FixedWindowSec) (hW : 0 < fw.WindowSize)
    (now : Int) (st : Option FixedWindowBucket) : DecisionOK (fw.Allow now st).1 := by
  simp only [FixedWindowSec.Allow, FixedWindowSec.AllowCore]
  split <;> split
  · exact ⟨le_rfl, by
      dsimp only
      simp only [show (false = true) = False from by simp, iff_false]
      omega⟩
  · rename_i hcond
    exact ⟨by simp at hcond ⊢; omega, by simp⟩
  · exact ⟨le_rfl, by
      dsimp only
      simp only [show (false = true) = False from by simp, iff_false]
      omega⟩
  · rename_i hcond
    exact ⟨by simp at hcond ⊢; omega, by simp⟩

lemma LeakyBucket.allow_decision_lb_ok (lb : LeakyBucket) (hr0 : 0 ≤ lb.Rate)
    (hr1 : lb.Rate ≤ nsPerSec) (now : Int) (st : Option LeakyBucketUser) :
    DecisionOK (lb.Allow now st).1 := by
  have hpos := invRateNanos_pos lb.Rate hr0 hr1
  simp only [LeakyBucket.Allow, LeakyBucket.AllowCore]
  split <;> split
  · rename_i hcond
    exact ⟨by simp at hcond ⊢; omega, by simp⟩
  · exact ⟨le_rfl, by
      dsimp only
      simp only [show (false = true) = False from by simp, iff_false]
      omega⟩
  · rename_i hcond
    exact ⟨by simp at hcond ⊢; omega, by simp⟩
  · exact ⟨le_rfl, by
      dsimp only
      simp only [show (false = true) = False from by simp, iff_false]
      omega⟩

lemma SlidingWindowCounter.run_nonneg_ok (swc : SlidingWindowCounter)
    (hW : 0 < swc.WindowSize) :
    ∀ (ts : List Int) (b : SlidingWindowCounterBucket),
      0 ≤ b.PreviousCount → 0 ≤ b.CurrentCount →
      ∀ r ∈ (swc.Run ts (some b)).1, DecisionOK r := by
  intro ts
  induction ts with
  | nil =>
    intro b _ _ r hr
    simp [SlidingWindowCounter.Run] at hr
  | cons t ts ih =>
    intro b hp hc r hr
    have hb1p : 0 ≤ (swc.Shift t b).PreviousCount := swc.shift_prev_nonneg t b hp hc
    have hb1c : 0 ≤ (swc.Shift t b).CurrentCount := swc.shift_curr_nonneg t b hc
    have hest0 : 0 ≤ swc.Estimate t (swc.Shift t b) :=
      swc.estimate_nonneg t _ hW hb1p hb1c
    have hrun : swc.Run (t :: ts) (some b) =
        ((swc.AllowCore t b).1 :: (swc.Run ts (some (swc.AllowCore t b).2.1)).1,
          (swc.Run ts (some (swc.AllowCore t b).2.1)).2) := rfl
    rw [hrun] at hr
    rcases List.mem_cons.mp hr with hhead | htail
    · subst hhead
      simp only [SlidingWindowCounter.AllowCore]
      split
      · rename_i hlt
        refine ⟨?_, by simp⟩
        have hfl : ratTrunc (swc.Estimate t (swc.Shift t b)) =
            ⌊swc.Estimate t (swc.Shift t b)⌋ := ratTrunc_eq_floor _ hest0
        have hlt2 : ⌊swc.Estimate t (swc.Shift t b)⌋ < swc.Limit := by
          have h1 : (⌊swc.Estimate t (swc.Shift t b)⌋ : ℚ) ≤
              swc.Estimate t (swc.Shift t b) := Int.floor_le _
          exact_mod_cast lt_of_le_of_lt h1 hlt
        simp only [hfl]
        omega
      · refine ⟨le_rfl, ?_⟩
        have hret := lt_tdiv_add_one_mul t swc.WindowSize hW
        dsimp only
        simp only [show (false = true) = False from by simp, iff_false]
        omega
    · have hnew : 0 ≤ (swc.AllowCore t b).2.1.PreviousCount ∧
          0 ≤ (swc.AllowCore t b).2.1.CurrentCount := by
        simp only [SlidingWindowCounter.AllowCore]
        split
        · exact ⟨hb1p, by dsimp only; omega⟩
        · exact ⟨hb1p, hb1c⟩
      exact ih (swc.AllowCore t b).2.1 hnew.1 hnew.2 r htail

/-- C3 counterexample: a token bucket configured with refillRate = 2 × 10^9
(more than one token per nanosecond) denies the second of two immediate calls
with retryAfter = Duration(10^9 / 2·10^9) truncated to 0 — a denied decision
with retryAfter = 0, contradicting the claimed iff. -/
theorem c3_counterexample :
    (TokenBucket.Run ⟨1, 2 * nsPerSec⟩ [0, 0] none).1.getLast? =
      some ⟨false, 1, 0, 0⟩ ∧ ¬ DecisionOK ⟨false, 1, 0, 0⟩ := by
  constructor
  · decide
  · decide

/-- C3 amended: every Decision returned by the four Decision-producing engines
satisfies remaining ≥ 0 and (retryAfter = 0 ↔ allowed), provided the
configuration is sane: nonnegative capacity, window size positive, and refill or
leak rate between 0 and 10^9 (one unit per nanosecond); the token bucket and
sliding-window counter are quantified over whole runs from a fresh key at
nondecreasing instants. With a rate above 10^9 the truncated retryAfter division
returns 0 on a denial (see the counterexample); with rate 0 the conversion of
the infinite float is a platform-defined saturated nonzero value. -/
theorem c3_decision_invariant_amended :
    (∀ (tb : TokenBucket) (times : List Int), 0 ≤ tb.Capacity →
      0 ≤ tb.RefillRate → tb.RefillRate ≤ nsPerSec →
      times.Chain' (· ≤ ·) →
      ∀ r ∈ (tb.Run times none).1, DecisionOK r) ∧
    (∀ (fw : FixedWindow) (now : Int) (st : Option FixedWindowBucket),
      0 < fw.WindowSize → DecisionOK (fw.Allow now st).1) ∧
    (∀ (fw : FixedWindowSec) (now : Int) (st : Option FixedWindowBucket),
      0 < fw.WindowSize → DecisionOK (fw.Allow now st).1) ∧
    (∀ (swc : SlidingWindowCounter) (times : List Int), 0 < swc.WindowSize →
      ∀ r ∈ (swc.Run times none).1, DecisionOK r) ∧
    (∀ (lb : LeakyBucket) (now : Int) (st : Option LeakyBucketUser),
      0 ≤ lb.Rate → lb.Rate ≤ nsPerSec → DecisionOK (lb.Allow now st).1) := by
  refine ⟨?_, ?_, ?_, ?_, ?_⟩
  · intro tb times hC hr0 hr1 hch r hr
    cases times with
    | nil => simp [TokenBucket.Run] at hr
    | cons t ts =>
      rw [TokenBucket.run_none_cons] at hr
      exact tb.run_decisions_ok hC hr0 hr1 (t :: ts) (tb.FreshBucket t) hC le_rfl
        (List.chain'_cons.mpr ⟨le_rfl, hch⟩) r hr
  · intro fw now st hW
    exact fw.allow_decision_ok hW now st
  · intro fw now st hW
    exact fw.allow_decision_sec_ok hW now st
  · intro swc times hW r hr
    cases times with
    | nil => simp [SlidingWindowCounter.Run] at hr
    | cons t ts =>
      have hfresh : swc.Run (t :: ts) none =
          swc.Run (t :: ts) (some (swc.FreshBucket t)) := rfl
      rw [hfresh] at hr
      exact swc.run_nonneg_ok hW (t :: ts) (swc.FreshBucket t) le_rfl le_rfl r hr
  · intro lb now st hr0 hr1
    exact lb.allow_decision_lb_ok hr0 hr1 now st

/-- Witness for the amended C3, covering in particular a token bucket with
refillRate = 0 denying a request (retryAfter is the saturated nonzero value)
and one concrete call of each other engine. -/
theorem c3_decision_invariant_amended_witness :
    DecisionOK ⟨false, 1, 0, 2 ^ 63 - 1⟩ ∧
    DecisionOK (FixedWindow.Allow ⟨1, 10⟩ 3 none).1 ∧
    DecisionOK (FixedWindowSec.Allow ⟨1, 10 * nsPerSec⟩ 5 none).1 ∧
    DecisionOK ⟨true, 2, 2, 0⟩ ∧
    DecisionOK (LeakyBucket.Allow ⟨3, 2⟩ 0 none).1 := by
  refine ⟨?_, ?_, ?_, ?_, ?_⟩
  · exact c3_decision_invariant_amended.1 ⟨1, 0⟩ [0, 0] (by norm_num) le_rfl
      (by norm_num [nsPerSec])
      (by norm_num [List.chain'_cons, List.chain'_singleton])
      ⟨false, 1, 0, 2 ^ 63 - 1⟩ (by decide)
  · exact c3_decision_invariant_amended.2.1 ⟨1, 10⟩ 3 none (by norm_num)
  · exact c3_decision_invariant_amended.2.2.1 ⟨1, 10 * nsPerSec⟩ 5 none
      (by norm_num [nsPerSec])
  · exact c3_decision_invariant_amended.2.2.2.1 ⟨2, 10⟩ [9] (by norm_num)
      ⟨true, 2, 2, 0⟩ (by
        rw [show SlidingWindowCounter.Run ⟨2, 10⟩ [9] none =
          (((SlidingWindowCounter.Allow ⟨2, 10⟩ 9 none).1 ::
            (SlidingWindowCounter.Run ⟨2, 10⟩ [] (some (SlidingWindowCounter.Allow ⟨2, 10⟩ 9 none).2.1)).1),
            (SlidingWindowCounter.Run ⟨2, 10⟩ [] (some (SlidingWindowCounter.Allow ⟨2, 10⟩ 9 none).2.1)).2) from rfl]
        rw [swc_ce_step1]
        simp [SlidingWindowCounter.Run])
  · exact c3_decision_invariant_amended.2.2.2.2 ⟨3, 2⟩ 0 none (by norm_num)
      (by norm_num [nsPerSec])

/-- Witness for the amended C2 at limit 2, windowSize 10, the counterexample
trace, and the aligned window [0, 10). -/
theorem c2_sliding_window_counter_amended_witness :
    (SlidingWindowCounter.AllowedInInterval ⟨2, 10⟩ [9, 9, 14, 16] (0 * 10) 10 : Int) ≤ 2 :=
  c2_sliding_window_counter_amended ⟨2, 10⟩ [9, 9, 14, 16] (by norm_num)
    (by norm_num) (by decide)
    (by norm_num [List.chain'_cons, List.chain'_singleton]) 0

/-! ## C9 -/

lemma resetOp_spec {α : Type} (s : Option (StoreEntry α)) (now : Int) :
    ((ResetOp s now).1 = ResetOutcome.notFound ↔ IsLive s now = false) ∧
    (IsLive s now = true → ResetOp s now = (ResetOutcome.ok, none)) := by
  cases s with
  | none => simp [ResetOp, StoreExists, IsLive]
  | some e =>
    simp only [ResetOp, StoreExists, IsLive]
    by_cases h : e.Expiration < now
    · rw [if_pos h]
      simp [show ¬(now ≤ e.Expiration) from by omega]
    · rw [if_neg h]
      simp [show now ≤ e.Expiration from by omega]

/-- C9: for the token-bucket and leaky-bucket engines, Reset returns the
NotFound error exactly when the store holds no live (present and unexpired)
record; otherwise it deletes the record and succeeds, and a subsequent Allow at
any instant reads no stored state and so behaves identically to a never-seen
key. -/
theorem c9_reset :
    (∀ (s : Option (StoreEntry Buckets)) (now : Int),
      ((TokenBucket.Reset s now).1 = ResetOutcome.notFound ↔ IsLive s now = false) ∧
      (IsLive s now = true → TokenBucket.Reset s now = (ResetOutcome.ok, none)) ∧
      (IsLive s now = true → ∀ (tb : TokenBucket) (t : Int),
        tb.Allow t (StoreGetValue (TokenBucket.Reset s now).2 t) =
          tb.Allow t none)) ∧
    (∀ (s : Option (StoreEntry LeakyBucketUser)) (now : Int),
      ((LeakyBucket.Reset s now).1 = ResetOutcome.notFound ↔ IsLive s now = false) ∧
      (IsLive s now = true → LeakyBucket.Reset s now = (ResetOutcome.ok, none)) ∧
      (IsLive s now = true → ∀ (lb : LeakyBucket) (t : Int),
        lb.Allow t (StoreGetValue (LeakyBucket.Reset s now).2 t) =
          lb.Allow t none)) := by
  constructor
  · intro s now
    refine ⟨(resetOp_spec s now).1, (resetOp_spec s now).2, ?_⟩
    intro hlive tb t
    have h2 := (resetOp_spec s now).2 hlive
    rw [show TokenBucket.Reset s now = ResetOp s now from rfl, h2]
    simp [StoreGetValue]
  · intro s now
    refine ⟨(resetOp_spec s now).1, (resetOp_spec s now).2, ?_⟩
    intro hlive lb t
    have h2 := (resetOp_spec s now).2 hlive
    rw [show LeakyBucket.Reset s now = ResetOp s now from rfl, h2]
    simp [StoreGetValue]

/-- Witness for C9: resetting a live token-bucket record deletes it, resetting
an absent leaky-bucket record reports NotFound, and an Allow after a successful
reset equals an Allow on a never-seen key. -/
theorem c9_reset_witness :
    TokenBucket.Reset (some ⟨⟨3, 0⟩, 100⟩) 5 = (ResetOutcome.ok, none) ∧
    (LeakyBucket.Reset (none : Option (StoreEntry LeakyBucketUser)) 7).1 =
      ResetOutcome.notFound ∧
    TokenBucket.Allow ⟨5, 1⟩ 50
        (StoreGetValue (TokenBucket.Reset (some ⟨⟨3, 0⟩, 100⟩) 5).2 50) =
      TokenBucket.Allow ⟨5, 1⟩ 50 none :=
  ⟨(c9_reset.1 (some ⟨⟨3, 0⟩, 100⟩) 5).2.1 (by decide),
    ((c9_reset.2 none 7).1).mpr (by decide),
    (c9_reset.1 (some ⟨⟨3, 0⟩, 100⟩) 5).2.2 (by decide) ⟨5, 1⟩ 50⟩

/-! ## C10 -/

lemma SlidingWindow.run_inv (sw : SlidingWindow) (hL : 0 ≤ sw.Limit) :
    ∀ (ts : List Int) (b : SlidingWindowBucket),
      b.Timestamps.Pairwise (· ≤ ·) → (b.Timestamps.length : Int) ≤ sw.Limit →
      (∀ x ∈ b.Timestamps, ∀ t ∈ ts, x ≤ t) → ts.Pairwise (· ≤ ·) →
      ∀ b2, (sw.Run ts (some b)).2 = some b2 →
        b2.Timestamps.Pairwise (· ≤ ·) ∧ (b2.Timestamps.length : Int) ≤ sw.Limit := by
  intro ts
  induction ts with
  | nil =>
    intro b hs hl _ _ b2 h2
    simp only [SlidingWindow.Run, Option.some.injEq] at h2
    subst h2
    exact ⟨hs, hl⟩
  | cons t ts ih =>
    intro b hs hl hbound hpw b2 h2
    have hfs : (b.Timestamps.filter
        (fun ts2 => decide (t - sw.WindowSize < ts2))).Pairwise (· ≤ ·) :=
      List.Pairwise.sublist (List.filter_sublist _) hs
    have hfl : (b.Timestamps.filter
        (fun ts2 => decide (t - sw.WindowSize < ts2))).length ≤
        b.Timestamps.length := List.length_filter_le _ _
    have hmem : ∀ x ∈ b.Timestamps.filter
        (fun ts2 => decide (t - sw.WindowSize < ts2)), x ∈ b.Timestamps :=
      fun x hx => List.mem_of_mem_filter hx
    have hrun : sw.Run (t :: ts) (some b) =
        ((sw.Allow t (some b)).1 :: (sw.Run ts (some (sw.Allow t (some b)).2.1)).1,
          (sw.Run ts (some (sw.Allow t (some b)).2.1)).2) := rfl
    rw [hrun] at h2
    have hbound2 : ∀ x ∈ (sw.Allow t (some b)).2.1.Timestamps, ∀ t2 ∈ ts, x ≤ t2 := by
      intro x hx t2 ht2
      have htle : t ≤ t2 := (List.pairwise_cons.mp hpw).1 t2 ht2
      simp only [SlidingWindow.Allow, Option.getD_some] at hx
      split at hx
      · rcases List.mem_append.mp hx with hxf | hxt
        · exact le_trans (hbound x (hmem x hxf) t (List.mem_cons_self t ts)) htle
        · rw [List.mem_singleton.mp hxt]
          exact htle
      · exact le_trans (hbound x (hmem x hx) t (List.mem_cons_self t ts)) htle
    have hsorted2 : (sw.Allow t (some b)).2.1.Timestamps.Pairwise (· ≤ ·) := by
      simp only [SlidingWindow.Allow, Option.getD_some]
      split
      · rw [List.pairwise_append]
        exact ⟨hfs, List.pairwise_singleton _ _, fun x hx y hy => by
          rw [List.mem_singleton.mp hy]
          exact hbound x (hmem x hx) t (List.mem_cons_self t ts)⟩
      · exact hfs
    have hlen2 : ((sw.Allow t (some b)).2.1.Timestamps.length : Int) ≤ sw.Limit := by
      simp only [SlidingWindow.Allow, Option.getD_some]
      split
      · rename_i hlt
        simp only [List.length_append, List.length_singleton]
        push_cast
        omega
      · rename_i hge
        push_cast at hge ⊢
        omega
    exact ih (sw.Allow t (some b)).2.1 hsorted2 hlen2 hbound2
      (List.pairwise_cons.mp hpw).2 b2 h2

/-- C10: along any run of the sliding-window log from a fresh key at
nondecreasing instants (including denied calls, and at every intermediate point
of a longer trace), the persisted timestamp list is sorted in nondecreasing
order and its length never exceeds the configured limit. -/
theorem c10_sliding_window_state (sw : SlidingWindow) (l₁ l₂ : List Int)
    (hL : 0 ≤ sw.Limit) (hmono : (l₁ ++ l₂).Chain' (· ≤ ·)) :
    ∀ b, (sw.Run l₁ none).2 = some b →
      b.Timestamps.Chain' (· ≤ ·) ∧ (b.Timestamps.length : Int) ≤ sw.Limit := by
  intro b hb
  have hpw : l₁.Pairwise (· ≤ ·) :=
    (List.pairwise_append.mp (List.chain'_iff_pairwise.mp hmono)).1
  cases l₁ with
  | nil => simp [SlidingWindow.Run] at hb
  | cons t ts =>
    have hfresh : sw.Run (t :: ts) none = sw.Run (t :: ts) (some ⟨[]⟩) := rfl
    rw [hfresh] at hb
    have h := sw.run_inv hL (t :: ts) ⟨[]⟩ (by simp) (by simpa using hL)
      (by simp) hpw b hb
    exact ⟨List.chain'_iff_pairwise.mpr h.1, h.2⟩

/-- Witness for C10: limit 3, two calls at instants 1, 2 with a later call at 3
pending — the stored list [1, 2] is sorted and within the limit. -/
theorem c10_sliding_window_state_witness :
    (⟨[1, 2]⟩ : SlidingWindowBucket).Timestamps.Chain' (· ≤ ·) ∧
    ((⟨[1, 2]⟩ : SlidingWindowBucket).Timestamps.length : Int) ≤ 3 :=
  c10_sliding_window_state ⟨3, 10⟩ [1, 2] [3] (by norm_num)
    (by norm_num [List.chain'_cons, List.chain'_singleton]) ⟨[1, 2]⟩ (by decide)

end Limitz
